import Mathlib

/-!
# Verification of the Murder Drones voice-controlled image viewer (`solver.py`)

A shallow embedding of the concurrent command-and-media core of `solver.py`:
the command dispatcher (`ViewerApp._process_commands`), the download pipeline
(`download_images`), the collection loader (`ViewerApp._load_images` /
`ImageItem._load`) and the timer-driven presentation-state machine
(`_show_image`, `_animate_gif`, `_stop_animation`, slideshow start/stop/step,
`next_image` / `prev_image`).

Python strings are embedded as Lean `String`; Python machine-level string
primitives (`str.split()`, `str.isdigit()`, `"x" in s`, `os.path.splitext`,
`int(...)` rendering) are re-implemented below on `List Char` by structural
recursion so that every definition evaluates inside the kernel.
-/

namespace Solver

/-! ## Python string primitives -/

/-- Python `str.split()` (no argument): split on runs of whitespace and drop
empty pieces.  Worker over the character list; `acc` holds the current word
reversed. -/
def splitWsGo : List Char → List Char → List String
  | [], acc => if acc = [] then [] else [String.mk acc.reverse]
  | c :: rest, acc =>
    if c.isWhitespace then
      if acc = [] then splitWsGo rest []
      else String.mk acc.reverse :: splitWsGo rest []
    else splitWsGo rest (c :: acc)

/-- Python `s.split()`. -/
def pySplit (s : String) : List String := splitWsGo s.data []

/-- Python `s.startswith(t)`. -/
def pyStartsWith (s t : String) : Bool := t.data.isPrefixOf s.data

/-- Python `s.endswith(t)`. -/
def pyEndsWith (s t : String) : Bool := t.data.reverse.isPrefixOf s.data.reverse

/-- Python `t in s` (substring containment). -/
def pyContains (s t : String) : Bool := s.data.tails.any (fun u => t.data.isPrefixOf u)

/-- Python `s.isdigit()` for ASCII text: nonempty and all decimal digits. -/
def pyIsDigit (s : String) : Bool := !s.data.isEmpty && s.data.all Char.isDigit

/-- Python `" ".join(l)`. -/
def joinSp : List String → String
  | [] => ""
  | [x] => x
  | x :: rest => x ++ " " ++ joinSp rest

/-- Numeric value of a decimal digit character. -/
def digitVal (c : Char) : Nat := c.toNat - 48

/-- Decimal value of a digit string (Python `int(s)` on a string that passed
`isdigit`). -/
def digsToNat (l : List Char) : Nat := l.foldl (fun a c => 10 * a + digitVal c) 0

/-- Python `int(s)` for command parsing (only applied after an `isdigit` guard). -/
def pyInt (s : String) : Nat := digsToNat s.data

/-- The decimal digit character for `d < 10`. -/
def decChar (d : Nat) : Char := Char.ofNat (48 + d)

/-- Fuel-driven most-significant-first decimal rendering of a natural number
(the f-string interpolation `f"{n}"` of a Python int).  The fuel is only a
structural-termination device: `natReprGo fuel n` is the decimal rendering
whenever `n < fuel`. -/
def natReprGo : Nat → Nat → List Char
  | 0, _ => []
  | fuel + 1, n => if n < 10 then [decChar n] else natReprGo fuel (n / 10) ++ [decChar (n % 10)]

/-- Decimal rendering of a natural number, as the characters of `f"{n}"`. -/
def natRepr (n : Nat) : List Char := natReprGo (n + 1) n

/-- Decimal rendering as a string. -/
def natReprStr (n : Nat) : String := String.mk (natRepr n)

/-! ### Facts about the decimal rendering -/

theorem digsToNat_append_singleton (l : List Char) (c : Char) :
    digsToNat (l ++ [c]) = 10 * digsToNat l + digitVal c := by
  simp [digsToNat, List.foldl_append]

theorem decChar_isDigit : ∀ d, d < 10 → (decChar d).isDigit = true := by decide

theorem digitVal_decChar : ∀ d, d < 10 → digitVal (decChar d) = d := by decide

theorem natReprGo_digits : ∀ fuel n, n < fuel → ∀ c ∈ natReprGo fuel n, c.isDigit = true := by
  intro fuel
  induction fuel with
  | zero => intro n h; omega
  | succ f ih =>
    intro n _ c hc
    simp only [natReprGo] at hc
    by_cases h10 : n < 10
    · simp [h10] at hc
      subst hc
      exact decChar_isDigit n h10
    · simp [h10, List.mem_append] at hc
      rcases hc with hc | hc
      · have hdiv : n / 10 < f := by omega
        exact ih (n / 10) hdiv c hc
      · subst hc
        exact decChar_isDigit (n % 10) (Nat.mod_lt _ (by omega))

theorem digsToNat_natReprGo : ∀ fuel n, n < fuel → digsToNat (natReprGo fuel n) = n := by
  intro fuel
  induction fuel with
  | zero => intro n h; omega
  | succ f ih =>
    intro n hn
    simp only [natReprGo]
    by_cases h10 : n < 10
    · simp [h10, digsToNat, digitVal_decChar n h10]
    · have hdiv : n / 10 < f := by omega
      simp [h10, digsToNat_append_singleton, ih (n / 10) hdiv,
        digitVal_decChar (n % 10) (Nat.mod_lt _ (by omega))]
      omega

theorem natRepr_digits (n : Nat) : ∀ c ∈ natRepr n, c.isDigit = true :=
  natReprGo_digits (n + 1) n (Nat.lt_succ_self n)

theorem digsToNat_natRepr (n : Nat) : digsToNat (natRepr n) = n :=
  digsToNat_natReprGo (n + 1) n (Nat.lt_succ_self n)

theorem natRepr_inj {m n : Nat} (h : natRepr m = natRepr n) : m = n := by
  have := digsToNat_natRepr m
  rw [h, digsToNat_natRepr] at this
  omega

/-! ## Paths, extensions and generated filenames (`download_images`, lines 154–162)

`download_images` picks the extension of a URL as
`ext = os.path.splitext(url.split("?")[0])[1]`, forcing `".jpg"` when the
extension is empty or longer than 5 characters, and generates
`fname = f"{prefix}_{int(time.time())}_{i}{ext}"`. -/

/-- `url.split("?")[0]`: the characters before the first `'?'`. -/
def pathPart (url : String) : String := String.mk (url.data.takeWhile (fun c => c ≠ '?'))

/-- The basename: the characters after the last `'/'` (the whole string when
there is no slash), as used by `os.path.splitext`. -/
def afterLastSlash (l : List Char) : List Char := (l.reverse.takeWhile (fun c => c ≠ '/')).reverse

/-- The extension part of `os.path.splitext` applied to a basename: the suffix
from the last dot, unless every character before that dot is itself a dot
(CPython's leading-dot rule, so `".bashrc"` has no extension). -/
def extFromBase (l : List Char) : List Char :=
  match l.reverse.dropWhile (fun c => c ≠ '.') with
  | [] => []
  | _ :: before =>
    if before.all (fun c => c = '.') then []
    else '.' :: (l.reverse.takeWhile (fun c => c ≠ '.')).reverse

/-- `os.path.splitext(p)[1]`. -/
def splitextExt (p : String) : String := String.mk (extFromBase (afterLastSlash p.data))

/-- The extension `download_images` uses for a URL:
`ext = splitext(url.split("?")[0])[1]`, replaced by `".jpg"` if empty or longer
than 5 characters. -/
def chooseExt (url : String) : String :=
  if splitextExt (pathPart url) = "" ∨ (splitextExt (pathPart url)).length > 5 then ".jpg"
  else splitextExt (pathPart url)

/-- Character-level form of the generated filename
`f"{prefix}_{int(time.time())}_{i}{ext}"`. -/
def mkFnameChars (p : List Char) (ts i : Nat) (e : List Char) : List Char :=
  p ++ '_' :: natRepr ts ++ '_' :: natRepr i ++ e

/-- `f"{prefix}_{int(time.time())}_{i}{ext}"` — the generated filename, from
the search-query prefix, the integer-second timestamp, the 1-based ordinal of
the URL in the batch, and the chosen extension. -/
def mkFname (pfx : String) (ts i : Nat) (ext : String) : String :=
  String.mk (mkFnameChars pfx.data ts i ext.data)

/-- Well-formedness of an extension as produced by `chooseExt`: it starts with
a dot and contains no further dot. -/
def wfExtB (e : String) : Bool :=
  match e.data with
  | c :: rest => c = '.' && rest.all (fun x => x != '.')
  | [] => false

/-! ### Decomposition uniqueness for generated filenames -/

theorem takeWhile_append_eq {P : Char → Bool} (a b : List Char)
    (ha : ∀ x ∈ a, P x = true) (hb : ∀ c, b.head? = some c → P c = false) :
    (a ++ b).takeWhile P = a ∧ (a ++ b).dropWhile P = b := by
  induction a with
  | nil =>
    simp only [List.nil_append]
    cases b with
    | nil => simp
    | cons c bs =>
      have hc : P c = false := hb c rfl
      simp [List.takeWhile, List.dropWhile, hc]
  | cons x xs ih =>
    have hx : P x = true := ha x (List.mem_cons_self x xs)
    have ihs := ih (fun y hy => ha y (List.mem_cons_of_mem x hy))
    simp [List.takeWhile, List.dropWhile, hx, ihs.1, ihs.2]

/-- Splitting an equality of two lists at a predicate boundary. -/
theorem append_inj_of_pred {P : Char → Bool} {a₁ b₁ a₂ b₂ : List Char}
    (ha₁ : ∀ x ∈ a₁, P x = true) (hb₁ : ∀ c, b₁.head? = some c → P c = false)
    (ha₂ : ∀ x ∈ a₂, P x = true) (hb₂ : ∀ c, b₂.head? = some c → P c = false)
    (h : a₁ ++ b₁ = a₂ ++ b₂) : a₁ = a₂ ∧ b₁ = b₂ := by
  have h₁ := takeWhile_append_eq a₁ b₁ ha₁ hb₁
  have h₂ := takeWhile_append_eq a₂ b₂ ha₂ hb₂
  constructor
  · rw [← h₁.1, ← h₂.1, h]
  · rw [← h₁.2, ← h₂.2, h]

theorem digit_bne_dot {c : Char} (h : c.isDigit = true) : (c != '.') = true := by
  revert h
  simp only [bne_iff_ne, ne_eq]
  intro h he
  subst he
  simp [Char.isDigit] at h

/-- The canonical reversed form of a generated filename's character list, for
an extension that starts with a dot. -/
theorem mkFnameChars_reverse (p : List Char) (t i : Nat) (r : List Char) :
    (mkFnameChars p t i ('.' :: r)).reverse =
      r.reverse ++ '.' :: ((natRepr i).reverse ++ '_' ::
        ((natRepr t).reverse ++ '_' :: p.reverse)) := by
  simp [mkFnameChars, List.reverse_append, List.append_assoc]

/-- Unpacking `wfExtB`: a well-formed extension is a dot followed by a
dot-free tail. -/
theorem wfExtB_elim {e : String} (w : wfExtB e = true) :
    ∃ r, e.data = '.' :: r ∧ ∀ c ∈ r, (c != '.') = true := by
  unfold wfExtB at w
  cases he : e.data with
  | nil => rw [he] at w; exact absurd w (by simp)
  | cons c rest =>
    rw [he] at w
    simp only [Bool.and_eq_true, decide_eq_true_eq, List.all_eq_true] at w
    exact ⟨rest, by rw [w.1], w.2⟩

/-- Character-level injectivity of the filename scheme: with dot-headed,
dot-free-tailed extensions, equal rendered filenames force equal prefixes,
timestamps, ordinals and extensions. -/
theorem mkFnameChars_inj {p₁ p₂ : List Char} {t₁ t₂ i₁ i₂ : Nat} {r₁ r₂ : List Char}
    (h₁ : ∀ c ∈ r₁, (c != '.') = true) (h₂ : ∀ c ∈ r₂, (c != '.') = true)
    (h : mkFnameChars p₁ t₁ i₁ ('.' :: r₁) = mkFnameChars p₂ t₂ i₂ ('.' :: r₂)) :
    p₁ = p₂ ∧ t₁ = t₂ ∧ i₁ = i₂ ∧ r₁ = r₂ := by
  have hrev := congrArg List.reverse h
  rw [mkFnameChars_reverse, mkFnameChars_reverse] at hrev
  -- step 1: split at the first dot of the reversed string = the extension dot
  have step1 := append_inj_of_pred (P := fun c => c != '.')
    (fun x hx => h₁ x (List.mem_reverse.mp hx))
    (fun c hc => by injection hc with hc; subst hc; decide)
    (fun x hx => h₂ x (List.mem_reverse.mp hx))
    (fun c hc => by injection hc with hc; subst hc; decide)
    hrev
  have hr : r₁ = r₂ := List.reverse_injective step1.1
  have hA : (natRepr i₁).reverse ++ '_' :: ((natRepr t₁).reverse ++ '_' :: p₁.reverse) =
      (natRepr i₂).reverse ++ '_' :: ((natRepr t₂).reverse ++ '_' :: p₂.reverse) := by
    injection step1.2
  -- step 2: split at the underscore before the ordinal
  have step2 := append_inj_of_pred (P := Char.isDigit)
    (fun x hx => natRepr_digits i₁ x (List.mem_reverse.mp hx))
    (fun c hc => by injection hc with hc; subst hc; decide)
    (fun x hx => natRepr_digits i₂ x (List.mem_reverse.mp hx))
    (fun c hc => by injection hc with hc; subst hc; decide)
    hA
  have hi : i₁ = i₂ := natRepr_inj (List.reverse_injective step2.1)
  have hB : (natRepr t₁).reverse ++ '_' :: p₁.reverse =
      (natRepr t₂).reverse ++ '_' :: p₂.reverse := by
    injection step2.2
  -- step 3: split at the underscore before the timestamp
  have step3 := append_inj_of_pred (P := Char.isDigit)
    (fun x hx => natRepr_digits t₁ x (List.mem_reverse.mp hx))
    (fun c hc => by injection hc with hc; subst hc; decide)
    (fun x hx => natRepr_digits t₂ x (List.mem_reverse.mp hx))
    (fun c hc => by injection hc with hc; subst hc; decide)
    hB
  have ht : t₁ = t₂ := natRepr_inj (List.reverse_injective step3.1)
  have hp : p₁ = p₂ := by
    have := step3.2
    injection this with _ htail
    exact List.reverse_injective htail
  exact ⟨hp, ht, hi, hr⟩

/-- Generated filenames determine their components: with well-formed
extensions, equal filenames come from equal prefix, timestamp, ordinal and
extension.  This is the precise uniqueness guarantee of the
`prefix_timestamp_ordinal.ext` naming scheme of `download_images`. -/
theorem mkFname_injective {p₁ p₂ : String} {t₁ t₂ i₁ i₂ : Nat} {e₁ e₂ : String}
    (w₁ : wfExtB e₁ = true) (w₂ : wfExtB e₂ = true)
    (h : mkFname p₁ t₁ i₁ e₁ = mkFname p₂ t₂ i₂ e₂) :
    p₁ = p₂ ∧ t₁ = t₂ ∧ i₁ = i₂ ∧ e₁ = e₂ := by
  obtain ⟨r₁, hr₁, hall₁⟩ := wfExtB_elim w₁
  obtain ⟨r₂, hr₂, hall₂⟩ := wfExtB_elim w₂
  have hd : mkFnameChars p₁.data t₁ i₁ e₁.data = mkFnameChars p₂.data t₂ i₂ e₂.data :=
    congrArg String.data h
  rw [hr₁, hr₂] at hd
  obtain ⟨hp, ht, hi, hr⟩ := mkFnameChars_inj hall₁ hall₂ hd
  refine ⟨?_, ht, hi, ?_⟩
  · cases p₁; cases p₂
    exact congrArg String.mk hp
  · cases e₁; cases e₂
    exact congrArg String.mk (hr₁.trans (by rw [hr]; exact hr₂.symm))

/-- Every extension `download_images` actually uses is well formed: it starts
with a dot and has a dot-free tail (either the forced `".jpg"` or the
last-dot suffix computed by `splitext`). -/
theorem extFromBase_shape (l : List Char) :
    extFromBase l = [] ∨
      ∃ after, extFromBase l = '.' :: after ∧ ∀ c ∈ after, (c != '.') = true := by
  unfold extFromBase
  split
  · exact Or.inl rfl
  · split
    · exact Or.inl rfl
    · refine Or.inr ⟨_, rfl, fun x hx => ?_⟩
      have hmem := List.mem_reverse.mp hx
      have hprop := List.mem_takeWhile_imp hmem
      simpa using hprop

theorem wfExtB_chooseExt (url : String) : wfExtB (chooseExt url) = true := by
  unfold chooseExt
  split
  · decide
  · next hnot =>
    rw [not_or] at hnot
    obtain ⟨hne, _⟩ := hnot
    rcases extFromBase_shape (afterLastSlash (pathPart url).data) with hnil | ⟨after, heq, hall⟩
    · exact absurd (congrArg String.mk hnil) hne
    · show wfExtB (String.mk (extFromBase (afterLastSlash (pathPart url).data))) = true
      rw [heq]
      simp only [wfExtB, List.all_eq_true, Bool.and_eq_true, decide_eq_true_eq]
      exact ⟨trivial, hall⟩

/-! ## The download pipeline (`download_images`, lines 148–181)

`download_images(urls, folder, prefix)` walks the URL list with 1-based
ordinals.  For each URL it computes the target filename, issues the request
(modelled by a `net` oracle from URL to an optional HTTP response — `none`
models a raised exception, which the code catches and skips), and saves the
file only when the status is 200 and the "simple safety" check does not skip:
the code skips only when `"image" not in content-type` AND the declared
`Content-Length` (defaulting to `"0"`) equals `"0"`. -/

/-- The parts of an HTTP response `download_images` inspects:
`r.status_code`, `r.headers.get("content-type", "")` and
`r.headers.get("Content-Length", "0")`. -/
structure Response where
  status : Nat
  contentType : Option String
  contentLength : Option String

/-- One iteration of the download loop decides to save iff the status is 200
and the content check passes (`"image" in ctype` or declared length not "0"). -/
def saveDecision (r : Response) : Bool :=
  r.status == 200 &&
    !(!pyContains (r.contentType.getD "") "image" && (r.contentLength.getD "0" == "0"))

/-- The loop of `download_images`, with `i` the 1-based ordinal and `clock`
the value of `int(time.time())` observed at ordinal `i`. -/
def dlGo (net : String → Option Response) (clock : Nat → Nat) (folder pfx : String) :
    Nat → List String → List String
  | _, [] => []
  | i, url :: rest =>
    let fname := mkFname pfx (clock i) i (chooseExt url)
    let filepath := folder ++ "/" ++ fname
    match net url with
    | none => dlGo net clock folder pfx (i + 1) rest
    | some r =>
      if saveDecision r then filepath :: dlGo net clock folder pfx (i + 1) rest
      else dlGo net clock folder pfx (i + 1) rest

/-- `download_images(urls, folder, prefix)`: returns the list of saved file
paths, in order. -/
def download_images (net : String → Option Response) (clock : Nat → Nat)
    (urls : List String) (folder pfx : String) : List String :=
  dlGo net clock folder pfx 1 urls

/-! ## The command dispatcher (`ViewerApp._process_commands`, lines 424–453)

Each drained command is classified by the `if`/`elif` chain.  The `download`
branch (lines 429–439) splits the command, joins **all** tokens after
`"download"` into the search term (defaulting to `"cyn murder drones"` when
the command is the single word), and takes the final token as the result
count when it is numeric (defaulting to `DEFAULT_DOWNLOAD_COUNT = 6`). -/

/-- `DEFAULT_DOWNLOAD_COUNT = 6` (line 39). -/
def DEFAULT_DOWNLOAD_COUNT : Nat := 6

/-- The effect the dispatcher chooses for one command string. -/
inductive Action where
  | download (term : String) (count : Nat)
  | next
  | prev
  | startSlideshowCmd
  | stopSlideshowCmd
  | quitApp
  | notRecognized (cmd : String)
  deriving DecidableEq

/-- The classification performed by `_process_commands` on a single drained
command string. -/
def processCommand (cmd : String) : Action :=
  if pyStartsWith cmd "download" then
    let parts := pySplit cmd
    let term := if parts.length ≥ 2 then joinSp (parts.drop 1) else "cyn murder drones"
    let count :=
      if !parts.isEmpty && pyIsDigit (parts.getLastD "") then pyInt (parts.getLastD "")
      else DEFAULT_DOWNLOAD_COUNT
    Action.download term count
  else if cmd = "next" ∨ cmd = "show next" ∨ cmd = "next image" then Action.next
  else if cmd = "previous" ∨ cmd = "prev" ∨ cmd = "show previous" then Action.prev
  else if cmd = "start slideshow" ∨ cmd = "play slideshow" ∨ cmd = "start" then
    Action.startSlideshowCmd
  else if cmd = "stop slideshow" ∨ cmd = "stop" then Action.stopSlideshowCmd
  else if cmd = "quit" ∨ cmd = "exit" ∨ cmd = "close" then Action.quitApp
  else Action.notRecognized cmd

/-! ## The media collection (`ImageItem._load`, `ViewerApp._load_images`)

`ImageItem.__init__` decodes its file eagerly; a decode failure is caught,
logged, and leaves `_frames = []` with `_is_animated` still `False`.  Frames
are opaque raster data, modelled as `Nat`; decoding is modelled by an oracle
`decode : String → Option (List Nat)` where `none` is a raised exception.

`_load_images` collects the files matching each glob pattern in turn
(`*.png`, `*.jpg`, `*.jpeg`, `*.gif`, `*.webp`, `*.bmp`), sorts the combined
list, and builds one `ImageItem` per file — decode failures included.  The
shared `images/` directory prefix of every glob result is constant, so paths
are modelled by their filenames. -/

/-- One loaded media item: its path, decoded frames and animation flag. -/
structure ImageItem where
  path : String
  frames : List Nat
  isAnimated : Bool
  deriving DecidableEq

/-- `ImageItem(path)`: decode on construction, swallowing failures into an
empty frame list (`_load`, lines 83–90). -/
def mkImageItem (decode : String → Option (List Nat)) (p : String) : ImageItem :=
  match decode p with
  | some fs => ⟨p, fs, decide (fs.length > 1)⟩
  | none => ⟨p, [], false⟩

/-- The glob patterns of `_load_images`, in source order, as filename
suffixes. -/
def imageExts : List String := [".png", ".jpg", ".jpeg", ".gif", ".webp", ".bmp"]

/-- `files.extend(glob.glob(...))` for each pattern: every directory entry
whose name ends with the pattern's extension, pattern by pattern, preserving
the filesystem's enumeration order within one pattern. -/
def globMatches (dirFiles : List String) : List String :=
  imageExts.foldl (fun acc ext => acc ++ dirFiles.filter (fun f => pyEndsWith f ext)) []

/-- Lexicographic comparison of strings by code point, as Python compares
`str` values. -/
def lexLe : List Char → List Char → Bool
  | [], _ => true
  | _ :: _, [] => false
  | a :: as, b :: bs => if a < b then true else if a = b then lexLe as bs else false

/-- Python `list.sort()` on strings: stable ascending sort, here as insertion
sort. -/
def insertStr (x : String) : List String → List String
  | [] => [x]
  | y :: ys => if lexLe x.data y.data then x :: y :: ys else y :: insertStr x ys

/-- The sorted file list of `_load_images`. -/
def sortStrs : List String → List String
  | [] => []
  | x :: xs => insertStr x (sortStrs xs)

/-- `files` after globbing and `files.sort()` (lines 253–256). -/
def loadFiles (dirFiles : List String) : List String := sortStrs (globMatches dirFiles)

/-- `self.images = [ImageItem(p) for p in files]` (line 257): the loaded
collection. -/
def loadImages (decode : String → Option (List Nat)) (dirFiles : List String) :
    List ImageItem :=
  (loadFiles dirFiles).map (mkImageItem decode)

theorem mkImageItem_path (decode : String → Option (List Nat)) (p : String) :
    (mkImageItem decode p).path = p := by
  unfold mkImageItem
  cases decode p <;> rfl

theorem loadImages_paths (decode : String → Option (List Nat)) (dirFiles : List String) :
    (loadImages decode dirFiles).map ImageItem.path = loadFiles dirFiles := by
  unfold loadImages
  rw [List.map_map]
  have : (ImageItem.path ∘ mkImageItem decode) = id := by
    funext p
    exact mkImageItem_path decode p
  rw [this, List.map_id]

/-! ## The presentation-loop state machine

`ViewerApp` state relevant to navigation, the slideshow timer and the
animation timer.  Tk's `after` mechanism is modelled by an id counter
(`nextTimer`) and one pending-callback list per timer family
(`pendingSlide` for `_slideshow_step`, `pendingAnim` for `_animate_gif`);
`after` appends a fresh id and stores it in the job handle, `after_cancel`
removes the handle's id, and a delivery ("fire") removes the fired id before
running the callback body.  What the canvas shows is tracked in `display`. -/

/-- What the main canvas currently shows. -/
inductive Disp where
  | blank
  | emptyMarker
  | loadFailed
  | showing (path : String)
  deriving DecidableEq

/-- The `ViewerApp` fields touched by navigation and the two timers. -/
structure ViewerState where
  images : List ImageItem
  index : Nat
  slideshow : Bool
  slideshowJob : Option Nat
  animJob : Option Nat
  currentFrames : List Nat
  currentFrameIndex : Nat
  pendingSlide : List Nat
  pendingAnim : List Nat
  nextTimer : Nat
  display : Disp
  deriving DecidableEq

/-- `_stop_animation` (lines 348–356): cancel the pending animation callback
if any, clear the frame buffer and reset the frame index. -/
def stopAnimation (s : ViewerState) : ViewerState :=
  { s with
    pendingAnim := match s.animJob with
      | some j => s.pendingAnim.erase j
      | none => s.pendingAnim
    currentFrames := []
    currentFrameIndex := 0
    animJob := none }

/-- `_animate_gif` (lines 339–346): display the current frame, advance the
frame index modulo the frame count, and re-arm the timer.  A no-op when no
frames are loaded. -/
def animateGif (s : ViewerState) : ViewerState :=
  if s.currentFrames = [] then s
  else
    { s with
      currentFrameIndex := (s.currentFrameIndex + 1) % s.currentFrames.length
      animJob := some s.nextTimer
      pendingAnim := s.nextTimer :: s.pendingAnim
      nextTimer := s.nextTimer + 1 }

/-- `_show_image(idx)` (lines 310–337): on an empty collection show the
empty marker and return; otherwise stop the animation, set
`index = idx % len(images)` (Python `%`, hence `Int.emod`), pull the item's
frames, and either report a failed load or display the item, starting the
frame-advance timer for real animations. -/
def showImage (s : ViewerState) (idx : Int) : ViewerState :=
  if s.images = [] then { s with display := Disp.emptyMarker }
  else
    let s1 := stopAnimation s
    let index := (idx % (s.images.length : Int)).toNat
    let item := s.images.getD index ⟨"", [], false⟩
    if item.frames = [] then { s1 with index := index, display := Disp.loadFailed }
    else
      let s2 := { s1 with
        index := index
        currentFrames := item.frames
        currentFrameIndex := 0
        display := Disp.showing item.path }
      if item.isAnimated && decide (item.frames.length > 1) then animateGif s2 else s2

/-- `next_image` (lines 358–361): no-op on an empty collection, else show
`index + 1`. -/
def nextImage (s : ViewerState) : ViewerState :=
  if s.images = [] then s else showImage s ((s.index : Int) + 1)

/-- `prev_image` (lines 363–366): no-op on an empty collection, else show
`index - 1`. -/
def prevImage (s : ViewerState) : ViewerState :=
  if s.images = [] then s else showImage s ((s.index : Int) - 1)

/-- `_schedule_slideshow` (lines 381–382): arm a slideshow tick and remember
its id. -/
def scheduleSlideshow (s : ViewerState) : ViewerState :=
  { s with
    slideshowJob := some s.nextTimer
    pendingSlide := s.nextTimer :: s.pendingSlide
    nextTimer := s.nextTimer + 1 }

/-- `_start_slideshow` (lines 374–379): no-op on an empty collection, else set
the flag and schedule a tick — without cancelling any tick already pending. -/
def startSlideshow (s : ViewerState) : ViewerState :=
  if s.images = [] then s else scheduleSlideshow { s with slideshow := true }

/-- `_stop_slideshow` (lines 389–397): clear the flag and cancel the
remembered tick, if any. -/
def stopSlideshow (s : ViewerState) : ViewerState :=
  match s.slideshowJob with
  | some j =>
    { s with slideshow := false, pendingSlide := s.pendingSlide.erase j, slideshowJob := none }
  | none => { s with slideshow := false }

/-- `toggle_slideshow` (lines 368–372). -/
def toggleSlideshow (s : ViewerState) : ViewerState :=
  if s.slideshow then stopSlideshow s else startSlideshow s

/-- The body of `_slideshow_step` (lines 384–387): advance, then re-arm if the
slideshow is still active. -/
def slideshowStep (s : ViewerState) : ViewerState :=
  let s1 := nextImage s
  if s1.slideshow then scheduleSlideshow s1 else s1

/-- Delivery of a pending slideshow tick `j`: remove it from the pending list
and run `_slideshow_step`. -/
def fireSlide (s : ViewerState) (j : Nat) : ViewerState :=
  if s.pendingSlide.contains j then slideshowStep { s with pendingSlide := s.pendingSlide.erase j }
  else s

/-- Delivery of a pending animation tick `j`: remove it from the pending list
and run `_animate_gif`. -/
def fireAnim (s : ViewerState) (j : Nat) : ViewerState :=
  if s.pendingAnim.contains j then animateGif { s with pendingAnim := s.pendingAnim.erase j }
  else s

/-- The operations the presentation loop can perform on this state: the
dispatcher's navigation and slideshow commands, the slideshow button, and
deliveries of the two timer families. -/
inductive Op where
  | next
  | prev
  | toggle
  | startSlide
  | stopSlide
  | fireSlide (j : Nat)
  | fireAnim (j : Nat)
  deriving DecidableEq

/-- One step of the presentation loop. -/
def step (s : ViewerState) : Op → ViewerState
  | Op.next => nextImage s
  | Op.prev => prevImage s
  | Op.toggle => toggleSlideshow s
  | Op.startSlide => startSlideshow s
  | Op.stopSlide => stopSlideshow s
  | Op.fireSlide j => fireSlide s j
  | Op.fireAnim j => fireAnim s j

/-- Run a sequence of operations. -/
def run (s : ViewerState) (ops : List Op) : ViewerState := ops.foldl step s

/-- The state after `ViewerApp.__init__`: collection loaded, cursor 0, no
timers, then `_show_image(0)`. -/
def initState (images : List ImageItem) : ViewerState :=
  showImage ⟨images, 0, false, none, none, [], 0, [], [], 0, Disp.blank⟩ 0

/-! ### The animation-timer invariant -/

/-- At most one animation callback is pending, and any pending callback is the
one the job handle remembers. -/
def animOk (s : ViewerState) : Prop :=
  s.pendingAnim = [] ∨ ∃ j, s.animJob = some j ∧ s.pendingAnim = [j]

theorem animOk_pendingAnim_len {s : ViewerState} (h : animOk s) : s.pendingAnim.length ≤ 1 := by
  rcases h with h | ⟨j, _, h⟩ <;> simp [h]

theorem stopAnimation_pendingAnim {s : ViewerState} (h : animOk s) :
    (stopAnimation s).pendingAnim = [] := by
  rcases h with h | ⟨j, hj, h⟩
  · unfold stopAnimation
    cases s.animJob <;> simp [h]
  · unfold stopAnimation
    rw [hj]
    simp [h]

theorem animateGif_animOk {s : ViewerState} (h : s.pendingAnim = []) :
    animOk (animateGif s) := by
  unfold animateGif
  split
  · exact Or.inl h
  · exact Or.inr ⟨s.nextTimer, rfl, by simp [h]⟩

theorem showImage_animOk {s : ViewerState} (idx : Int) (h : animOk s) :
    animOk (showImage s idx) := by
  unfold showImage
  split
  · rcases h with h | ⟨j, hj, hp⟩
    · exact Or.inl h
    · exact Or.inr ⟨j, hj, hp⟩
  · have h1 : (stopAnimation s).pendingAnim = [] := stopAnimation_pendingAnim h
    dsimp only
    split
    · exact Or.inl h1
    · split
      · exact animateGif_animOk (by simpa using h1)
      · exact Or.inl (by simpa using h1)

theorem nextImage_animOk {s : ViewerState} (h : animOk s) : animOk (nextImage s) := by
  unfold nextImage
  split
  · exact h
  · exact showImage_animOk _ h

theorem prevImage_animOk {s : ViewerState} (h : animOk s) : animOk (prevImage s) := by
  unfold prevImage
  split
  · exact h
  · exact showImage_animOk _ h

theorem scheduleSlideshow_animOk {s : ViewerState} (h : animOk s) :
    animOk (scheduleSlideshow s) := by
  rcases h with h | ⟨j, hj, hp⟩
  · exact Or.inl h
  · exact Or.inr ⟨j, hj, hp⟩

theorem startSlideshow_animOk {s : ViewerState} (h : animOk s) : animOk (startSlideshow s) := by
  unfold startSlideshow
  split
  · exact h
  · apply scheduleSlideshow_animOk
    rcases h with h | ⟨j, hj, hp⟩
    · exact Or.inl h
    · exact Or.inr ⟨j, hj, hp⟩

theorem stopSlideshow_animOk {s : ViewerState} (h : animOk s) : animOk (stopSlideshow s) := by
  unfold stopSlideshow
  rcases h with h | ⟨j, hj, hp⟩
  · cases s.slideshowJob <;> exact Or.inl h
  · cases s.slideshowJob <;> exact Or.inr ⟨j, hj, hp⟩

theorem toggleSlideshow_animOk {s : ViewerState} (h : animOk s) : animOk (toggleSlideshow s) := by
  unfold toggleSlideshow
  split
  · exact stopSlideshow_animOk h
  · exact startSlideshow_animOk h

theorem slideshowStep_animOk {s : ViewerState} (h : animOk s) : animOk (slideshowStep s) := by
  unfold slideshowStep
  have h1 := nextImage_animOk h
  dsimp only
  split
  · exact scheduleSlideshow_animOk h1
  · exact h1

theorem fireSlide_animOk {s : ViewerState} (j : Nat) (h : animOk s) : animOk (fireSlide s j) := by
  unfold fireSlide
  split
  · apply slideshowStep_animOk
    rcases h with h | ⟨k, hk, hp⟩
    · exact Or.inl h
    · exact Or.inr ⟨k, hk, hp⟩
  · exact h

theorem fireAnim_animOk {s : ViewerState} (j : Nat) (h : animOk s) : animOk (fireAnim s j) := by
  unfold fireAnim
  split
  · next hmem =>
    apply animateGif_animOk
    rcases h with h | ⟨k, hk, hp⟩
    · rw [h] at hmem
      simp at hmem
    · rw [hp] at hmem ⊢
      simp only [List.contains_cons] at hmem
      have : j = k := by
        simpa using hmem
      simp [this]
  · exact h

theorem step_animOk {s : ViewerState} (op : Op) (h : animOk s) : animOk (step s op) := by
  cases op with
  | next => exact nextImage_animOk h
  | prev => exact prevImage_animOk h
  | toggle => exact toggleSlideshow_animOk h
  | startSlide => exact startSlideshow_animOk h
  | stopSlide => exact stopSlideshow_animOk h
  | fireSlide j => exact fireSlide_animOk j h
  | fireAnim j => exact fireAnim_animOk j h

theorem run_animOk {s : ViewerState} (ops : List Op) (h : animOk s) : animOk (run s ops) := by
  induction ops generalizing s with
  | nil => exact h
  | cons op rest ih => exact ih (step_animOk op h)

theorem initState_animOk (images : List ImageItem) : animOk (initState images) :=
  showImage_animOk 0 (Or.inl rfl)

/-! ### The slideshow-timer invariant -/

/-- The slideshow-timer state is healthy: no tick is pending while the
slideshow is off or unremembered, and any pending tick is the remembered
one. -/
def slideOk (s : ViewerState) : Prop :=
  (s.slideshow = false → s.pendingSlide = []) ∧
  (s.slideshowJob = none → s.pendingSlide = []) ∧
  (∀ j, s.slideshowJob = some j → s.pendingSlide = [] ∨ s.pendingSlide = [j])

/-- The slideshow-related fields two states share. -/
def eqSlide (s t : ViewerState) : Prop :=
  t.slideshow = s.slideshow ∧ t.slideshowJob = s.slideshowJob ∧
    t.pendingSlide = s.pendingSlide

theorem slideOk_of_eqSlide {s t : ViewerState} (e : eqSlide s t) (h : slideOk s) : slideOk t := by
  obtain ⟨e1, e2, e3⟩ := e
  exact ⟨fun hf => e3.trans (h.1 (e1 ▸ hf)), fun hn => e3.trans (h.2.1 (e2 ▸ hn)),
    fun j hj => by rw [e3]; exact h.2.2 j (e2 ▸ hj)⟩

theorem animateGif_slideEq (s : ViewerState) : eqSlide s (animateGif s) := by
  unfold animateGif
  split <;> exact ⟨rfl, rfl, rfl⟩

theorem showImage_slideEq (s : ViewerState) (idx : Int) : eqSlide s (showImage s idx) := by
  unfold showImage
  dsimp only
  split
  · exact ⟨rfl, rfl, rfl⟩
  · split
    · exact ⟨rfl, rfl, rfl⟩
    · split
      · exact animateGif_slideEq _
      · exact ⟨rfl, rfl, rfl⟩

theorem nextImage_slideEq (s : ViewerState) : eqSlide s (nextImage s) := by
  unfold nextImage
  split
  · exact ⟨rfl, rfl, rfl⟩
  · exact showImage_slideEq _ _

theorem prevImage_slideEq (s : ViewerState) : eqSlide s (prevImage s) := by
  unfold prevImage
  split
  · exact ⟨rfl, rfl, rfl⟩
  · exact showImage_slideEq _ _

theorem fireAnim_slideEq (s : ViewerState) (j : Nat) : eqSlide s (fireAnim s j) := by
  unfold fireAnim
  split
  · exact animateGif_slideEq _
  · exact ⟨rfl, rfl, rfl⟩

theorem startSlideshow_slideOk {s : ViewerState} (h : slideOk s)
    (hg : s.slideshow = false) : slideOk (startSlideshow s) := by
  unfold startSlideshow
  split
  · exact h
  · have hp : s.pendingSlide = [] := h.1 hg
    unfold scheduleSlideshow
    refine ⟨fun hf => by simp at hf, fun hn => by simp at hn, fun j hj => ?_⟩
    simp only [Option.some.injEq] at hj
    simp [hp, ← hj]

theorem stopSlideshow_slideOk {s : ViewerState} (h : slideOk s) : slideOk (stopSlideshow s) := by
  unfold stopSlideshow
  cases hj : s.slideshowJob with
  | none =>
    have hp : s.pendingSlide = [] := h.2.1 hj
    exact ⟨fun _ => hp, fun _ => hp, fun j hjj => Or.inl hp⟩
  | some j =>
    have hp : s.pendingSlide = [] ∨ s.pendingSlide = [j] := h.2.2 j hj
    have he : s.pendingSlide.erase j = [] := by
      rcases hp with hp | hp <;> simp [hp]
    exact ⟨fun _ => he, fun _ => he, fun k hk => by simp at hk⟩

theorem toggleSlideshow_slideOk {s : ViewerState} (h : slideOk s) :
    slideOk (toggleSlideshow s) := by
  unfold toggleSlideshow
  split
  · exact stopSlideshow_slideOk h
  · next hf =>
    exact startSlideshow_slideOk h (by revert hf; cases s.slideshow <;> simp)

theorem slideshowStep_slideOk_of_empty {s : ViewerState} (hp : s.pendingSlide = []) :
    slideOk (slideshowStep s) := by
  unfold slideshowStep
  dsimp only
  have e := nextImage_slideEq s
  split
  · next hs =>
    unfold scheduleSlideshow
    refine ⟨fun hf => by simp [hs] at hf, fun hn => by simp at hn, fun j hj => ?_⟩
    simp only [Option.some.injEq] at hj
    simp [e.2.2, hp, ← hj]
  · exact ⟨fun _ => e.2.2.trans hp, fun _ => e.2.2.trans hp, fun _ _ => Or.inl (e.2.2.trans hp)⟩

theorem fireSlide_slideOk {s : ViewerState} (j : Nat) (h : slideOk s) :
    slideOk (fireSlide s j) := by
  unfold fireSlide
  split
  · next hmem =>
    apply slideshowStep_slideOk_of_empty
    show s.pendingSlide.erase j = []
    cases hj : s.slideshowJob with
    | none =>
      have hp : s.pendingSlide = [] := h.2.1 hj
      simp [hp]
    | some k =>
      rcases h.2.2 k hj with hp | hp
      · simp [hp]
      · rw [hp] at hmem ⊢
        have : j = k := by simpa using hmem
        simp [this]
  · exact h

theorem step_slideOk {s : ViewerState} (op : Op) (h : slideOk s)
    (hg : op = Op.startSlide → s.slideshow = false) : slideOk (step s op) := by
  cases op with
  | next => exact slideOk_of_eqSlide (nextImage_slideEq s) h
  | prev => exact slideOk_of_eqSlide (prevImage_slideEq s) h
  | toggle => exact toggleSlideshow_slideOk h
  | startSlide => exact startSlideshow_slideOk h (hg rfl)
  | stopSlide => exact stopSlideshow_slideOk h
  | fireSlide j => exact fireSlide_slideOk j h
  | fireAnim j => exact slideOk_of_eqSlide (fireAnim_slideEq s j) h

/-- A run is guarded when `_start_slideshow` is only ever invoked while the
slideshow is inactive (as the `Play ▶` button guarantees via
`toggle_slideshow`, but the `"start slideshow"` voice command does not). -/
def guardedB : ViewerState → List Op → Bool
  | _, [] => true
  | s, op :: rest =>
    (match op with
      | Op.startSlide => !s.slideshow
      | _ => true) && guardedB (step s op) rest

theorem run_slideOk {ops : List Op} : ∀ {s : ViewerState}, slideOk s →
    guardedB s ops = true → slideOk (run s ops) := by
  induction ops with
  | nil => exact fun h _ => h
  | cons op rest ih =>
    intro s h hg
    simp only [guardedB, Bool.and_eq_true] at hg
    refine ih (step_slideOk op h ?_) hg.2
    intro hop
    subst hop
    simpa using hg.1

theorem initState_slideOk (images : List ImageItem) : slideOk (initState images) :=
  slideOk_of_eqSlide (showImage_slideEq _ 0)
    ⟨fun _ => rfl, fun _ => rfl, fun _ h => by simp at h⟩

theorem slideOk_pendingSlide_len {s : ViewerState} (h : slideOk s) :
    s.pendingSlide.length ≤ 1 := by
  cases hj : s.slideshowJob with
  | none => simp [h.2.1 hj]
  | some j =>
    rcases h.2.2 j hj with hp | hp <;> simp [hp]

/-! ### Cursor arithmetic for navigation -/

theorem animateGif_index (s : ViewerState) : (animateGif s).index = s.index := by
  unfold animateGif
  split <;> rfl

theorem animateGif_images (s : ViewerState) : (animateGif s).images = s.images := by
  unfold animateGif
  split <;> rfl

theorem showImage_images (s : ViewerState) (idx : Int) : (showImage s idx).images = s.images := by
  unfold showImage
  dsimp only
  split
  · rfl
  · split
    · rfl
    · split
      · rw [animateGif_images]
        rfl
      · rfl

theorem nextImage_images (s : ViewerState) : (nextImage s).images = s.images := by
  unfold nextImage
  split
  · rfl
  · exact showImage_images _ _

theorem showImage_index (s : ViewerState) (idx : Int) (h : ¬s.images = []) :
    (showImage s idx).index = (idx % (s.images.length : Int)).toNat := by
  unfold showImage
  rw [if_neg h]
  dsimp only
  split
  · rfl
  · split
    · rw [animateGif_index]
    · rfl

theorem nextImage_index (s : ViewerState) (h : ¬s.images = []) :
    (nextImage s).index = (((s.index : Int) + 1) % (s.images.length : Int)).toNat := by
  unfold nextImage
  rw [if_neg h]
  exact showImage_index s _ h

theorem emod_add_cancel (x k N : Int) : (x % N + k) % N = (x + k) % N := by
  have hx := Int.emod_add_ediv x N
  have h1 : (x % N + k + N * (x / N)) % N = (x % N + k) % N :=
    Int.add_mul_emod_self_left (x % N + k) N (x / N)
  have h2 : x % N + k + N * (x / N) = x + k := by omega
  rw [← h1, h2]

theorem run_next_spec (k : Nat) : ∀ (s : ViewerState), s.images ≠ [] →
    s.index < s.images.length →
    (run s (List.replicate k Op.next)).images = s.images ∧
    (run s (List.replicate k Op.next)).index =
      (((s.index : Int) + k) % (s.images.length : Int)).toNat := by
  induction k with
  | zero =>
    intro s h h2
    refine ⟨rfl, ?_⟩
    have hz : ((s.index : Int) + (0 : Nat)) = (s.index : Int) := by push_cast; ring
    rw [List.replicate_zero]
    show s.index = _
    rw [hz, Int.emod_eq_of_lt (by positivity) (by exact_mod_cast h2)]
    simp
  | succ k ih =>
    intro s h h2
    have hstep : run s (List.replicate (k + 1) Op.next) =
        run (nextImage s) (List.replicate k Op.next) := by
      rw [List.replicate_succ]
      rfl
    have hN0 : (0 : Int) < (s.images.length : Int) := by
      exact_mod_cast List.length_pos.mpr h
    have himg : (nextImage s).images = s.images := nextImage_images s
    have hidx : (nextImage s).index = (((s.index : Int) + 1) % (s.images.length : Int)).toNat :=
      nextImage_index s h
    have h2' : (nextImage s).index < (nextImage s).images.length := by
      rw [himg, hidx]
      exact (Int.toNat_lt' (List.length_pos.mpr h).ne').mpr
        (Int.emod_lt_of_pos ((s.index : Int) + 1) hN0)
    obtain ⟨ih1, ih2⟩ := ih (nextImage s) (by rw [himg]; exact h) h2'
    rw [hstep]
    refine ⟨by rw [ih1, himg], ?_⟩
    rw [ih2, hidx, himg]
    have ht : ((((s.index : Int) + 1) % (s.images.length : Int)).toNat : Int) =
        ((s.index : Int) + 1) % (s.images.length : Int) :=
      Int.toNat_of_nonneg (Int.emod_nonneg _ (by omega))
    rw [ht, emod_add_cancel]
    have harg : (s.index : Int) + 1 + (k : Int) = (s.index : Int) + ((k : Nat) + 1 : Nat) := by
      push_cast
      omega
    rw [harg]

/-! ### Permutations of a two-element directory listing -/

theorem perm_pair_cases {α : Type} {x y : α} {l : List α} (h : l.Perm [x, y]) :
    l = [x, y] ∨ l = [y, x] := by
  have hlen : l.length = 2 := by simpa using h.length_eq
  cases l with
  | nil => simp at hlen
  | cons p rest =>
    cases rest with
    | nil => simp at hlen
    | cons q rest2 =>
      cases rest2 with
      | nil =>
        have hp : p = x ∨ p = y := by
          have := h.mem_iff.mp (show p ∈ [p, q] by simp)
          simpa using this
        rcases hp with hp | hp
        · left
          have h' : [q].Perm [y] := by
            rw [hp] at h
            exact h.cons_inv
          have hq : q = y := by simpa using List.perm_singleton.mp h'
          rw [hp, hq]
        · right
          have sw : List.Perm ([x, y] : List α) [y, x] := List.Perm.swap y x []
          have h' : [q].Perm [x] := by
            have h2 := h.trans sw
            rw [hp] at h2
            exact h2.cons_inv
          have hq : q = x := by simpa using List.perm_singleton.mp h'
          rw [hp, hq]
      | cons r rest3 => simp at hlen

/-! ## Concrete fixtures for the claims -/

/-- A clock that always reads second 7 — two overlapping download runs in the
same wall-clock second. -/
def cexClock : Nat → Nat := fun _ => 7

/-- Five URLs for the batch-download scenarios. -/
def urls5 : List String := ["u1", "u2", "u3", "u4", "u5"]

/-- A network where `u2` and `u4` answer with non-image payloads that declare
a nonzero `Content-Length`, and the rest answer with images. -/
def cexNetKeep : String → Option Response := fun u =>
  if u = "u2" ∨ u = "u4" then some ⟨200, some "text/html", some "512"⟩
  else some ⟨200, some "image/jpeg", some "1000"⟩

/-- A network where `u2` and `u4` answer with non-image payloads without a
declared `Content-Length`, and the rest answer with images. -/
def amNet : String → Option Response := fun u =>
  if u = "u2" ∨ u = "u4" then some ⟨200, some "text/html", none⟩
  else some ⟨200, some "image/jpeg", some "1000"⟩

/-- A network where every URL answers with an image. -/
def netImg : String → Option Response := fun _ => some ⟨200, some "image/jpeg", some "1000"⟩

/-- A one-item collection whose item decoded to a single static frame. -/
def oneItem : List ImageItem := [⟨"a.jpg", [0], false⟩]

/-- A three-item collection including an animated item. -/
def threeItems : List ImageItem :=
  [⟨"a.jpg", [0], false⟩, ⟨"b.png", [1], false⟩, ⟨"c.gif", [2, 3], true⟩]

/-- A guarded operation sequence: start, tick, stop, start again. -/
def goodOps : List Op := [Op.startSlide, Op.fireSlide 0, Op.stopSlide, Op.startSlide]

/-- A decoder that succeeds on `a.jpg` and raises on everything else. -/
def cexDecode : String → Option (List Nat) := fun p => if p = "a.jpg" then some [7] else none

/-! ## The claims -/

/-- C1: the spec claims `"download cyn 8"` parses to query `"cyn"` with
count 8.  The code (`_process_commands`, lines 429–439) does take the trailing
numeric token as the count, but joins **all** tokens after `"download"` —
including that numeric token — into the query, so `"download cyn 8"`
dispatches a fetch for query `"cyn 8"` with count 8 (while `"download cyn"`
does use the default count).  This contradicts the code's own grammar comment
`"download <term> [n]"`. -/
theorem claim_C1 :
    processCommand "download cyn 8" = Action.download "cyn 8" 8 ∧
    processCommand "download cyn" = Action.download "cyn" DEFAULT_DOWNLOAD_COUNT := by
  decide

/-- C2 counterexample: with 2 of 5 URLs answering non-image payloads (here
`text/html` with a declared nonzero length), `download_images` still saves all
five files — not the three the claim predicts — because the skip test requires
the declared `Content-Length` to also be `"0"`. -/
theorem claim_C2_counterexample :
    download_images cexNetKeep cexClock urls5 "images" "q" =
      ["images/q_7_1.jpg", "images/q_7_2.jpg", "images/q_7_3.jpg",
        "images/q_7_4.jpg", "images/q_7_5.jpg"] ∧
    (download_images cexNetKeep cexClock urls5 "images" "q").length ≠ 3 := by
  decide

/-- C2 (amended): `download_images` skips a 200-status response only when its
declared content type lacks `"image"` **and** its declared `Content-Length`
is absent or `"0"`; a non-image response with a nonzero declared length is
saved.  Given 5 URLs of which 2 return non-image responses with no declared
length, it returns exactly 3 saved paths, each a distinct filename. -/
theorem claim_C2 :
    download_images amNet cexClock urls5 "images" "q" =
      ["images/q_7_1.jpg", "images/q_7_3.jpg", "images/q_7_5.jpg"] ∧
    (download_images amNet cexClock urls5 "images" "q").length = 3 ∧
    (download_images amNet cexClock urls5 "images" "q").Nodup := by
  decide

/-- C3 counterexample: two download runs with the same query prefix that
observe the same integer second — exactly the situation of two concurrent
fetches with overlapping queries — generate the **same** filename for their
first URL (the timestamp `int(time.time())` has second resolution, not high
resolution), so the two writers collide on one path. -/
theorem claim_C3_counterexample :
    download_images netImg cexClock ["http://h/a.png?x=1"] "images" "cyn_murder_drones" =
      ["images/cyn_murder_drones_7_1.png"] ∧
    download_images netImg cexClock ["http://h/b.png"] "images" "cyn_murder_drones" =
      ["images/cyn_murder_drones_7_1.png"] := by
  decide

/-- C3 (amended): two generated filenames (whose extensions are well formed,
as `chooseExt` guarantees) coincide exactly when their prefix, integer-second
timestamp, ordinal and extension all coincide.  Hence names within one run
(distinct ordinals) never collide and runs with distinct prefixes never
collide, but two concurrent runs with the same query can collide when they
observe the same second at the same ordinal. -/
theorem claim_C3 (p₁ p₂ : String) (t₁ t₂ i₁ i₂ : Nat) (e₁ e₂ : String)
    (w₁ : wfExtB e₁ = true) (w₂ : wfExtB e₂ = true) :
    mkFname p₁ t₁ i₁ e₁ = mkFname p₂ t₂ i₂ e₂ ↔
      (p₁ = p₂ ∧ t₁ = t₂ ∧ i₁ = i₂ ∧ e₁ = e₂) := by
  constructor
  · exact mkFname_injective w₁ w₂
  · rintro ⟨rfl, rfl, rfl, rfl⟩
    rfl

/-- Witness for C3: the characterization applied at a concrete pair of
name-generation inputs differing only in the ordinal. -/
theorem claim_C3_witness :
    wfExtB ".jpg" = true ∧
    (mkFname "cyn" 7 1 ".jpg" = mkFname "cyn" 7 2 ".jpg" ↔
      ("cyn" = "cyn" ∧ 7 = 7 ∧ 1 = 2 ∧ ".jpg" = ".jpg")) :=
  ⟨by decide, claim_C3 "cyn" "cyn" 7 7 1 2 ".jpg" ".jpg" (by decide) (by decide)⟩

/-- C4 counterexample: `_start_slideshow` does not cancel a pending slideshow
tick before scheduling a new one, so two `"start slideshow"` commands in a row
(no intervening stop) leave **two** ticks pending. -/
theorem claim_C4_counterexample :
    ¬((run (initState oneItem) [Op.startSlide, Op.startSlide]).pendingSlide.length ≤ 1) := by
  decide

/-- C4 (amended): for every operation sequence in which `_start_slideshow` is
only invoked while the slideshow is inactive (as the toggle button guarantees,
but repeated voice commands do not), at most one slideshow tick is pending at
any time. -/
theorem claim_C4 (images : List ImageItem) (ops : List Op)
    (hg : guardedB (initState images) ops = true) :
    (run (initState images) ops).pendingSlide.length ≤ 1 :=
  slideOk_pendingSlide_len (run_slideOk (initState_slideOk images) hg)

/-- Witness for C4: a guarded start–tick–stop–start run keeps at most one
pending tick. -/
theorem claim_C4_witness :
    guardedB (initState oneItem) goodOps = true ∧
    (run (initState oneItem) goodOps).pendingSlide.length ≤ 1 :=
  ⟨by decide, claim_C4 oneItem goodOps (by decide)⟩

/-- C5 counterexample: loading a directory of two files where `b.png` fails to
decode yields a collection of length 2 — the item list does **not** shorten to
1 — and the collection contains an item whose decode failed (kept with an
empty frame list). -/
theorem claim_C5_counterexample :
    (loadImages cexDecode ["a.jpg", "b.png"]).length ≠ 1 ∧
    (loadImages cexDecode ["a.jpg", "b.png"]).length = 2 ∧
    ∃ it ∈ loadImages cexDecode ["a.jpg", "b.png"], cexDecode it.path = none := by
  decide

/-- C5 (amended): a decode failure is swallowed rather than aborting the load,
but the item list does not shorten: one item is built per matching file, and a
failed item stays in the collection with an empty frame list and
`is_animated = False`. -/
theorem claim_C5 (decode : String → Option (List Nat)) (dirFiles : List String) :
    (loadImages decode dirFiles).map ImageItem.path = loadFiles dirFiles ∧
    ∀ it ∈ loadImages decode dirFiles, decode it.path = none →
      it.frames = [] ∧ it.isAnimated = false := by
  refine ⟨loadImages_paths decode dirFiles, fun it hit hdec => ?_⟩
  obtain ⟨p, hp, rfl⟩ := List.mem_map.mp hit
  rw [mkImageItem_path] at hdec
  simp [mkImageItem, hdec]

/-- Witness for C5: a failing decoder leaves the single matching file in the
collection as an empty item. -/
theorem claim_C5_witness :
    (⟨"a.jpg", [], false⟩ : ImageItem) ∈ loadImages (fun _ => none) ["a.jpg"] ∧
    ((⟨"a.jpg", [], false⟩ : ImageItem).frames = [] ∧
      (⟨"a.jpg", [], false⟩ : ImageItem).isAnimated = false) :=
  ⟨by decide, (claim_C5 (fun _ => none) ["a.jpg"]).2 ⟨"a.jpg", [], false⟩ (by decide) rfl⟩

/-- C6: on a nonempty collection with the cursor in range (as the code always
keeps it), advancing by +1 exactly `N` times brings the cursor back to its
starting item. -/
theorem claim_C6 (s : ViewerState) (h1 : s.images ≠ []) (h2 : s.index < s.images.length) :
    (run s (List.replicate s.images.length Op.next)).index = s.index := by
  obtain ⟨-, hidx⟩ := run_next_spec s.images.length s h1 h2
  rw [hidx]
  have hN : (0 : Int) < (s.images.length : Int) := by
    exact_mod_cast List.length_pos.mpr h1
  have hmod : ((s.index : Int) + (s.images.length : Nat)) % (s.images.length : Int) =
      (s.index : Int) := by
    have hone : ((s.index : Int) + (s.images.length : Nat)) =
        (s.index : Int) + (s.images.length : Int) * 1 := by ring
    rw [hone, Int.add_mul_emod_self_left]
    exact Int.emod_eq_of_lt (by positivity) (by exact_mod_cast h2)
  rw [hmod]
  simp

/-- Witness for C6: three advances on the three-item collection return the
cursor to item 0. -/
theorem claim_C6_witness :
    (initState threeItems).images ≠ [] ∧
    (initState threeItems).index < (initState threeItems).images.length ∧
    (run (initState threeItems)
      (List.replicate (initState threeItems).images.length Op.next)).index =
      (initState threeItems).index :=
  ⟨by decide, by decide, claim_C6 (initState threeItems) (by decide) (by decide)⟩

/-- C7: advancing (in either direction) on an empty collection is a total
no-op — the whole state, the cursor included, is unchanged and no exception
path exists — and the empty marker is what the canvas shows for an empty
collection (with the cursor at its initial 0). -/
theorem claim_C7 (s : ViewerState) (h : s.images = []) :
    step s Op.next = s ∧ step s Op.prev = s ∧
    (initState []).display = Disp.emptyMarker ∧ (initState []).index = 0 := by
  refine ⟨?_, ?_, rfl, rfl⟩
  · show nextImage s = s
    unfold nextImage
    rw [if_pos h]
  · show prevImage s = s
    unfold prevImage
    rw [if_pos h]

/-- Witness for C7: the empty-collection start state. -/
theorem claim_C7_witness :
    (initState []).images = [] ∧
    (step (initState []) Op.next = initState [] ∧ step (initState []) Op.prev = initState [] ∧
      (initState []).display = Disp.emptyMarker ∧ (initState []).index = 0) :=
  ⟨by decide, claim_C7 (initState []) (by decide)⟩

/-- C8: for every operation sequence — navigation, slideshow control and timer
deliveries — at most one frame-advance animation callback is pending at any
time: `_show_image` always runs `_stop_animation` (cancel and reset to frame
0) before `_animate_gif` schedules anew, and a delivered tick is consumed
before `_animate_gif` re-arms. -/
theorem claim_C8 (images : List ImageItem) (ops : List Op) :
    (run (initState images) ops).pendingAnim.length ≤ 1 :=
  animOk_pendingAnim_len (run_animOk ops (initState_animOk images))

/-- C9: a directory holding `a.jpg` and `b.png` loads, in either enumeration
order, to a two-item collection in lexical filename order — the per-pattern
glob results are concatenated and then sorted. -/
theorem claim_C9 (decode : String → Option (List Nat)) (l : List String)
    (h : l.Perm ["a.jpg", "b.png"]) :
    (loadImages decode l).map ImageItem.path = ["a.jpg", "b.png"] ∧
    (loadImages decode l).length = 2 := by
  have hlen : ∀ m : List String,
      (loadImages decode m).length = (loadFiles m).length := by
    intro m
    have hl := congrArg List.length (loadImages_paths decode m)
    rw [List.length_map] at hl
    exact hl
  rcases perm_pair_cases h with rfl | rfl
  · exact ⟨by rw [loadImages_paths]; decide, by rw [hlen]; decide⟩
  · exact ⟨by rw [loadImages_paths]; decide, by rw [hlen]; decide⟩

/-- Witness for C9: the reversed enumeration order. -/
theorem claim_C9_witness :
    (["b.png", "a.jpg"] : List String).Perm ["a.jpg", "b.png"] ∧
    ((loadImages (fun _ => none) ["b.png", "a.jpg"]).map ImageItem.path =
      ["a.jpg", "b.png"] ∧
      (loadImages (fun _ => none) ["b.png", "a.jpg"]).length = 2) :=
  ⟨List.Perm.swap "a.jpg" "b.png" [],
    claim_C9 (fun _ => none) ["b.png", "a.jpg"] (List.Perm.swap "a.jpg" "b.png" [])⟩

/-- C10: the bare command `"download"` dispatches a fetch with the fixed
default query `"cyn murder drones"` and the default result count 6. -/
theorem claim_C10 :
    processCommand "download" = Action.download "cyn murder drones" DEFAULT_DOWNLOAD_COUNT ∧
    DEFAULT_DOWNLOAD_COUNT = 6 := by
  decide

end Solver
